import Mathlib

/-!
# Verification of the README-generator route

Shallow embedding of the repository's core pipeline
(`server/routes/generate-readme.ts`): URL parsing (`parseRepoUrl`),
metadata fetching (`fetchJson`, `fetchRepoMetadata`), the generative-service
call (`callGemini`), document assembly (`buildReadme`) and the orchestrating
route handler (`generateReadmeRoute`).

JavaScript runtime values flowing out of `JSON.parse` are modelled by the
`Json` inductive; JS truthiness, the nullish-coalescing operator `??`,
`String.prototype.trim`, `Array.prototype.join`, `String.prototype.split`
on the separator regex (comma followed by whitespace), and
`String.prototype.includes` are modelled explicitly.  JS whitespace is
approximated by ASCII whitespace (`Char.isWhitespace`); JS string
`.length` (UTF-16 units) is approximated by the character count — the
difference is irrelevant for every statement below.  Upstream network
calls are modelled by outcome parameters: each call site takes its outcome
(success payload, non-success HTTP response, or transport error) as an
input.
-/

/-- A JSON runtime value (the result of `JSON.parse`).  Numbers are
modelled as integers; no claim depends on fractional values. -/
inductive Json where
  | null
  | bool (b : Bool)
  | num (n : Int)
  | str (s : String)
  | arr (elems : List Json)
  | obj (fields : List (String × Json))

/-- JS truthiness of a JSON value (`Boolean(v)`). -/
def Json.truthy : Json → Bool
  | .null => false
  | .bool b => b
  | .num n => n != 0
  | .str s => s != ""
  | .arr _ => true
  | .obj _ => true

/-- Truthiness test `!x` in JS, for a possibly-absent value. -/
def jsFalsyOpt : Option Json → Bool
  | none => true
  | some v => !v.truthy

/-- Nullishness of a possibly-absent value: `undefined` and `null` both
trigger the nullish-coalescing fallback `??`. -/
def jsNullish : Option Json → Bool
  | none => true
  | some .null => true
  | some _ => false

/-- Model of `a ?? b` on a possibly-absent JSON value. -/
def coalesce (a : Option Json) (b : Json) : Json :=
  match a with
  | none => b
  | some .null => b
  | some v => v

/-- JS truthiness test `!s` for a possibly-absent string. -/
def jsFalsyStr : Option String → Bool
  | none => true
  | some s => s == ""

/-- Dropping leading and trailing whitespace from a character list. -/
def trimList (l : List Char) : List Char :=
  ((l.dropWhile Char.isWhitespace).reverse.dropWhile Char.isWhitespace).reverse

/-- Model of `String.prototype.trim` (JS whitespace approximated by ASCII
whitespace). -/
def strTrim (s : String) : String := ⟨trimList s.data⟩

/-- Model of `Array.prototype.join(sep)`. -/
def jsJoin (sep : String) : List String → String
  | [] => ""
  | [x] => x
  | x :: y :: xs => x ++ sep ++ jsJoin sep (y :: xs)

/-- Splitting a character list at every comma. -/
def splitOnComma : List Char → List (List Char)
  | [] => [[]]
  | c :: rest =>
      if c = ',' then [] :: splitOnComma rest
      else
        match splitOnComma rest with
        | [] => [[c]]
        | seg :: segs => (c :: seg) :: segs

/-- Model of `String.prototype.split` on the separator regex "comma
followed by any amount of whitespace": each comma separator greedily
consumes the whitespace that follows it, which is the same as splitting on
commas and then stripping leading whitespace from every segment after the
first. -/
def splitCommaWs (s : String) : List String :=
  match splitOnComma s.data with
  | [] => []
  | seg :: segs =>
      (⟨seg⟩ : String) ::
        segs.map (fun l => (⟨l.dropWhile Char.isWhitespace⟩ : String))

/-- The three-backtick fence marker, as characters. -/
def fenceChars : List Char := "```".data

/-- Model of the `includes` test on the fence marker: whether `s` contains
three consecutive backticks. -/
def containsFence (s : String) : Bool := decide (fenceChars <:+: s.data)

/-- The canonical metadata record (`RepoMetadata` in `shared/api.ts`). -/
structure RepoMetadata where
  owner : String
  repo : String
  name : String
  description : Option String
  languages : List String
  license : Option String
  defaultBranch : String
  homepage : Option String
  topics : List String
  tree : List String
deriving DecidableEq

/-- The narrative-sections record (`GeneratedSections` in `shared/api.ts`)
at runtime: the TS types promise strings, but `callGemini` copies three of
the four fields out of a dynamically-typed payload without validation, so
each field holds an arbitrary JSON value (`none` = absent/`undefined`). -/
structure GeneratedSections where
  description : Option Json := none
  features : Option (List Json) := none
  installation : Option Json := none
  usage : Option Json := none

/-- The record of which narrative sections were populated
(`filledWithGemini`). -/
structure FilledFlags where
  description : Bool := false
  features : Bool := false
  installation : Bool := false
  usage : Bool := false
deriving DecidableEq

/-- Test for a JSON string value. -/
def isStrJson : Json → Bool
  | .str _ => true
  | _ => false

/-- A possibly-absent field is absent or a string. -/
def wellTypedOpt : Option Json → Bool
  | none => true
  | some j => isStrJson j

/-- The record conforms to the declared TS type `GeneratedSections`:
every present field is a string (features: an array of strings). -/
def GeneratedSections.wellTyped (g : GeneratedSections) : Bool :=
  wellTypedOpt g.description && (g.features.getD []).all isStrJson &&
    wellTypedOpt g.installation && wellTypedOpt g.usage

/-- Model of `v.trim()` on a runtime value: a TypeError unless `v` is a
string. -/
def jsTrimJson : Json → Except String String
  | .str s => .ok (strTrim s)
  | _ => .error "TypeError: trim is not a function"

/-- Source line 107: the trimmed
`generated.description ?? meta.description ?? "Not specified."`. -/
def renderDescription (meta : RepoMetadata) (g : GeneratedSections) :
    Except String String :=
  jsTrimJson (coalesce g.description
    (match meta.description with
     | some s => .str s
     | none => .str "Not specified."))

/-- Source lines 109–111:
`(generated.features ?? []).map(s => s.trim()).filter(Boolean)`. -/
def featuresArr (g : GeneratedSections) : Except String (List String) :=
  match (g.features.getD []).mapM jsTrimJson with
  | .error e => .error e
  | .ok ts => .ok (ts.filter (fun t => t != ""))

/-- Source lines 112 and 130: the Features bullet parts —
`featuresArr.length ? featuresArr : ["Not specified."]`, each rendered as
a bullet. -/
def renderFeatures (g : GeneratedSections) : Except String (List String) :=
  match featuresArr g with
  | .error e => .error e
  | .ok fa =>
      .ok ((if fa.isEmpty then ["Not specified."] else fa).map
        (fun f => "- " ++ f))

/-- Source lines 114 and 133: the Installation Guide part — trimmed
`generated.installation ?? "Not specified."`, wrapped in a `bash` fence
unless it already contains a fence. -/
def renderInstallation (g : GeneratedSections) : Except String String :=
  match jsTrimJson (coalesce g.installation (.str "Not specified.")) with
  | .error e => .error e
  | .ok i => .ok (if containsFence i then i else "```bash\n" ++ i ++ "\n```")

/-- Source lines 115 and 136: the Usage part — trimmed
`generated.usage ?? "Not specified."`, wrapped in a fence unless it
already contains one or is exactly the placeholder. -/
def renderUsage (g : GeneratedSections) : Except String String :=
  match jsTrimJson (coalesce g.usage (.str "Not specified.")) with
  | .error e => .error e
  | .ok u =>
      .ok (if containsFence u then u
        else if u != "Not specified." then "```\n" ++ u ++ "\n```" else u)

/-- Source lines 117 and 139: the Tech Stack part — the joined language
list (or the placeholder), re-split on comma-plus-whitespace and
bulleted. -/
def renderTechStack (meta : RepoMetadata) : String :=
  let techStack :=
    if meta.languages.isEmpty then "Not specified."
    else jsJoin ", " meta.languages
  jsJoin "\n" ((splitCommaWs techStack).map (fun t => "- " ++ t))

/-- Source lines 119 and 142–147: the Project Structure part — the tree in
a fence, or the unfenced placeholder when the tree is empty (or literally
starts with the placeholder). -/
def renderStructure (meta : RepoMetadata) : String :=
  let structureLines :=
    if meta.tree.isEmpty then ["Not specified."] else meta.tree
  match structureLines with
  | [] => "Not specified."
  | x :: _ =>
      if x = "Not specified." then "Not specified."
      else "```\n" ++ jsJoin "\n" structureLines ++ "\n```"

/-- Source line 121: the License Information part —
`(meta.license ?? "Not specified.").toString()`. -/
def renderLicense (meta : RepoMetadata) : String :=
  meta.license.getD "Not specified."

/-- Source line 106: the title, `meta.name || owner/repo`. -/
def titleOf (meta : RepoMetadata) : String :=
  if meta.name = "" then meta.owner ++ "/" ++ meta.repo else meta.name

/-- Source lines 123–151: the `parts` array pushed by `buildReadme`,
evaluated in source order; the narrative-derived parts can raise a
TypeError when a field is not a string. -/
def buildReadmeParts (meta : RepoMetadata) (g : GeneratedSections) :
    Except String (List String) :=
  match renderDescription meta g with
  | .error e => .error e
  | .ok description =>
    match renderFeatures g with
    | .error e => .error e
    | .ok featureParts =>
      match renderInstallation g with
      | .error e => .error e
      | .ok installationPart =>
        match renderUsage g with
        | .error e => .error e
        | .ok usagePart =>
            .ok (["# " ++ titleOf meta, "", "## Description", description,
                  "", "## Features"]
              ++ featureParts
              ++ ["", "## Installation Guide", installationPart, "",
                  "## Usage", usagePart, "",
                  "## Tech Stack", renderTechStack meta, "",
                  "## Project Structure", renderStructure meta, "",
                  "## License Information", renderLicense meta, ""])

/-- Source lines 101–154: `buildReadme`, the parts joined with newlines.
The `filled` argument is accepted, and ignored, exactly as in the
source. -/
def buildReadme (meta : RepoMetadata) (g : GeneratedSections)
    (filled : FilledFlags) : Except String String :=
  match buildReadmeParts meta g with
  | .error e => .error e
  | .ok parts => .ok (jsJoin "\n" parts)

/-- One character of the owner/repo character class: alphanumerics, dot,
underscore, hyphen. -/
def repoChar (c : Char) : Bool := c.isAlphanum || c == '.' || c == '_' || c == '-'

/-- Case-insensitive character comparison, as performed by a
non-Unicode-mode regex under the ignore-case flag (ASCII folding). -/
def ciEqChar (a b : Char) : Bool := a.toLower == b.toLower

/-- Stripping a literal pattern off the front of the input,
case-insensitively; returns the remainder on success. -/
def stripCI : List Char → List Char → Option (List Char)
  | [], l => some l
  | _ :: _, [] => none
  | p :: ps, c :: cs => if ciEqChar p c then stripCI ps cs else none

/-- The literal host part of the URL regex. -/
def hostChars : List Char := "https://github.com/".toList

/-- Whether a character is matched by an unflagged regex dot: anything but
a line terminator. -/
def dotOk (c : Char) : Bool := !(c == '\n' || c == '\r' || c == ' ' || c == ' ')

/-- The optional tail of the URL regex: nothing, a single slash, or a hash
followed by at most one (non-line-terminator) character. -/
def matchTail : List Char → Bool
  | [] => true
  | [c] => c == '/' || c == '#'
  | [c, d] => c == '#' && dotOk d
  | _ => false

/-- Source lines 43–49: `parseRepoUrl`, matching
`^https://github.com/(owner)/(repo)(slash-or-short-fragment)?$`
case-insensitively.  Greedy character-class matching is equivalent to the
regex because the class excludes `/` and `#`. -/
def parseRepoUrl (url : String) : Option (String × String) :=
  match stripCI hostChars url.data with
  | none => none
  | some rest =>
    match rest.dropWhile repoChar with
    | '/' :: rest2 =>
        if (rest.takeWhile repoChar).isEmpty ||
            (rest2.takeWhile repoChar).isEmpty then none
        else if matchTail (rest2.dropWhile repoChar) then
          some ((⟨rest.takeWhile repoChar⟩ : String),
            (⟨rest2.takeWhile repoChar⟩ : String))
        else none
    | _ => none

/-- Outcome of one upstream HTTP call: a typed success payload, a
non-success HTTP response, or a thrown transport error. -/
inductive HttpResult (α : Type) where
  | success (val : α)
  | failure (status : Nat) (statusText : String) (body : String)
  | transport (msg : String)
deriving DecidableEq

/-- Source lines 51–58: `fetchJson` — a non-success response is thrown as
an error carrying the status and body; a transport error propagates. -/
def fetchJson {α : Type} : HttpResult α → Except String α
  | .success v => .ok v
  | .failure status statusText body =>
      .error ("HTTP " ++ toString status ++ " " ++ statusText ++ ": " ++ body)
  | .transport msg => .error msg

/-- The license object of the repo-info response. -/
structure GhLicense where
  spdx_id : Option String
  name : Option String
deriving DecidableEq

/-- The fields of the GitHub repo-info response that the fetcher reads. -/
structure GhRepoInfo where
  name : Option String
  description : Option String
  license : Option GhLicense
  default_branch : String
  homepage : Option String
  topics : Option (List String)
deriving DecidableEq

/-- One entry of the recursive-tree response (`type` is a reserved word in
Lean, hence `typ`). -/
structure GhTreeNode where
  path : String
  typ : String
deriving DecidableEq

/-- The recursive-tree response. -/
structure GhTree where
  tree : Option (List GhTreeNode)
deriving DecidableEq

/-- Truthy-or-null coalescing `x || null` on an optional string: an empty
string is falsy and becomes null. -/
def jsOrNull (o : Option String) : Option String :=
  match o with
  | some s => if s = "" then none else some s
  | none => none

/-- Source lines 60–99: `fetchRepoMetadata` — three sequential upstream
calls (their outcomes are inputs), then normalization: languages are the
keys of the breakdown map, license is `spdx_id ?? name ?? null`, the tree
keeps blob/tree entries capped at 500. -/
def fetchRepoMetadata (owner repo : String)
    (repoOut : HttpResult GhRepoInfo)
    (langsOut : HttpResult (List (String × Nat)))
    (treeOut : HttpResult GhTree) : Except String RepoMetadata :=
  match fetchJson repoOut with
  | .error e => .error e
  | .ok repoData =>
    match fetchJson langsOut with
    | .error e => .error e
    | .ok langsData =>
      match fetchJson treeOut with
      | .error e => .error e
      | .ok treeData =>
        let languages := langsData.map (·.1)
        let license :=
          match repoData.license with
          | some l =>
              match l.spdx_id with
              | some s => some s
              | none => l.name
          | none => none
        let tree :=
          (((treeData.tree.getD []).filter
              (fun n => n.typ == "blob" || n.typ == "tree")).map
            (fun n => n.path)).take 500
        .ok { owner := owner, repo := repo,
              name := repoData.name.getD repo,
              description := repoData.description,
              languages := languages, license := license,
              defaultBranch := repoData.default_branch,
              homepage := jsOrNull repoData.homepage,
              topics := repoData.topics.getD [],
              tree := tree }

/-- JS-object field access as performed by `JSON.parse` results: for
duplicate keys the last occurrence wins. -/
def lookupField (fs : List (String × Json)) (k : String) : Option Json :=
  fs.foldl (fun acc p => if p.1 = k then some p.2 else acc) none

/-- Test for a JSON array (`Array.isArray`). -/
def isArrJson : Json → Bool
  | .arr _ => true
  | _ => false

/-- Source lines 213–225: parsing the reply's text payload.  `none` stands
for a text `JSON.parse` cannot parse (total parse failure); a parsed
`null` makes the field accesses throw, which the same `catch` turns into
the empty record; property access on any other non-object yields
`undefined` for every key.  For an object, `features` is kept only when it
is an array; `description`, `installation` and `usage` are copied
unvalidated. -/
def parseGenerated : Option Json → GeneratedSections
  | none => {}
  | some (.obj fs) =>
      { description := lookupField fs "description",
        features :=
          match lookupField fs "features" with
          | some (.arr xs) => some xs
          | _ => none,
        installation := lookupField fs "installation",
        usage := lookupField fs "usage" }
  | some _ => {}

/-- Outcome of the single generative-service call: a thrown transport
error, a non-success response (lines 206–209 throw), or a reply whose
extracted text payload parses to the given JSON value (or to nothing). -/
inductive GeminiOutcome where
  | transportFail (msg : String)
  | httpFail (status : Nat) (text : String)
  | reply (payload : Option Json)

/-- Source lines 156–226: `callGemini` — throws on transport errors and
non-success responses, otherwise parses the reply's text payload. -/
def callGemini : GeminiOutcome → Except String GeneratedSections
  | .transportFail msg => .error msg
  | .httpFail status text =>
      .error ("Gemini API error " ++ toString status ++ ": " ++ text)
  | .reply payload => .ok (parseGenerated payload)

/-- A non-fatal error entry accumulated by the route. -/
structure ErrEntry where
  code : String
  message : String
deriving DecidableEq

/-- The success envelope (`GenerateReadmeResponse` in `shared/api.ts`). -/
structure GenerateReadmeResponse where
  readme : String
  fileName : String
  metadata : RepoMetadata
  filledWithGemini : FilledFlags
  errors : Option (List ErrEntry)
deriving DecidableEq

/-- The route's terminal response: a JSON error with an HTTP status, or
the success envelope. -/
inductive RouteResult where
  | errorRes (status : Nat) (error : String) (code : String)
  | okRes (payload : GenerateReadmeResponse)
deriving DecidableEq

/-- The credential configuration (`process.env`). -/
structure RouteEnv where
  githubToken : Option String
  geminiKey : Option String
deriving DecidableEq

/-- Source lines 268–275: the narrative stage as the orchestrator runs it
— the call's failure is caught at the stage boundary, converted into a
non-fatal `GEMINI_API_ERROR` entry, and the empty record is used. -/
def narrativeStage (gem : GeminiOutcome) : GeneratedSections × List ErrEntry :=
  match callGemini gem with
  | .ok g => (g, [])
  | .error e =>
      ({}, [⟨"GEMINI_API_ERROR", ("Gemini API error: " ++ e).take 500⟩])

/-- Source line 265: whether the metadata description needs generating —
absent, empty, or shorter than five characters after trimming. -/
def needDescriptionOf (meta : RepoMetadata) : Bool :=
  jsFalsyStr meta.description ||
    (strTrim (meta.description.getD "")).length < 5

/-- Source lines 277–279: back-filling the description from the metadata
when the generator left it falsy, the description is needed, and the
metadata description is truthy. -/
def applyBackfill (meta : RepoMetadata) (g : GeneratedSections) :
    GeneratedSections :=
  if jsFalsyOpt g.description && needDescriptionOf meta &&
      !(jsFalsyStr meta.description) then
    { g with description := meta.description.map Json.str }
  else g

/-- Source lines 281–284: marking which keys of the (merged, back-filled)
record are truthy.  All four keys are marked by truthiness: an absent key
and a present falsy value both leave the flag unset, and a present array —
even an empty one — is truthy. -/
def markFilled (g : GeneratedSections) : FilledFlags :=
  { description := !(jsFalsyOpt g.description),
    features := g.features.isSome,
    installation := !(jsFalsyOpt g.installation),
    usage := !(jsFalsyOpt g.usage) }

/-- Source lines 228–301: the route handler.  `repoUrl?` is the request
body's optional `repoUrl`; the three `HttpResult`s and the
`GeminiOutcome` are the outcomes the upstream calls would have at this
request.  The outermost catch converts any uncaught exception (in this
model: a TypeError thrown by `buildReadme`) into a 500
`INTERNAL_ERROR`. -/
def generateReadmeRoute (env : RouteEnv) (repoUrl? : Option String)
    (repoOut : HttpResult GhRepoInfo)
    (langsOut : HttpResult (List (String × Nat)))
    (treeOut : HttpResult GhTree) (gem : GeminiOutcome) : RouteResult :=
  match repoUrl? with
  | none => .errorRes 400 "Repository URL is required." "MISSING_REPO_URL"
  | some raw =>
    let repoUrl := strTrim raw
    if repoUrl = "" then
      .errorRes 400 "Repository URL is required." "MISSING_REPO_URL"
    else
      match parseRepoUrl repoUrl with
      | none =>
          .errorRes 400
            "Invalid GitHub repository URL. Expected https://github.com/<owner>/<repo>"
            "INVALID_REPO_URL"
      | some (owner, repo) =>
        if jsFalsyStr env.githubToken then
          .errorRes 500 "Server missing GITHUB_TOKEN environment variable."
            "MISSING_GITHUB_TOKEN"
        else
          let keyErrs : List ErrEntry :=
            if jsFalsyStr env.geminiKey then
              [⟨"MISSING_GEMINI_API_KEY",
                "Server missing GEMINI_API_KEY; generated content may be limited."⟩]
            else []
          match fetchRepoMetadata owner repo repoOut langsOut treeOut with
          | .error e =>
              .errorRes 502 (("GitHub API error: " ++ e).take 500)
                "GITHUB_API_ERROR"
          | .ok meta =>
            let stage :=
              if jsFalsyStr env.geminiKey then (({} : GeneratedSections), [])
              else narrativeStage gem
            let errors := keyErrs ++ stage.2
            let generated := applyBackfill meta stage.1
            let filled := markFilled generated
            match buildReadme meta generated filled with
            | .error _ =>
                .errorRes 500 "Unexpected server error." "INTERNAL_ERROR"
            | .ok readme =>
                .okRes ⟨readme, meta.repo ++ "-README.md", meta, filled,
                  if errors.isEmpty then none else some errors⟩

/-! ## Helper lemmas -/

lemma str_append_ne_left (x y : String) (hx : x ≠ "") : x ++ y ≠ "" := by
  intro h
  apply hx
  have hd := congrArg String.data h
  rw [String.data_append] at hd
  have h0 : String.data "" = [] := rfl
  rw [h0] at hd
  have hx0 : x.data = [] := (List.append_eq_nil.mp hd).1
  cases x with
  | mk d => cases hx0; rfl

lemma str_append_ne_right (x y : String) (hy : y ≠ "") : x ++ y ≠ "" := by
  intro h
  apply hy
  have hd := congrArg String.data h
  rw [String.data_append] at hd
  have h0 : String.data "" = [] := rfl
  rw [h0] at hd
  have hy0 : y.data = [] := (List.append_eq_nil.mp hd).2
  cases y with
  | mk d => cases hy0; rfl

lemma containsFence_ne_empty {s : String} (h : containsFence s = true) :
    s ≠ "" := by
  intro h'
  rw [h'] at h
  exact absurd h (by decide)

lemma infix_dropWhile_of_all {p : Char → Bool} {xs l : List Char}
    (hne : xs ≠ []) (hall : ∀ a ∈ xs, p a = false) (h : xs <:+: l) :
    xs <:+: l.dropWhile p := by
  induction l with
  | nil =>
      obtain ⟨s, t, hst⟩ := h
      rcases List.append_eq_nil.mp hst with ⟨h1, -⟩
      exact absurd (List.append_eq_nil.mp h1).2 hne
  | cons d l ih =>
      rcases List.infix_cons_iff.mp h with hpre | hinf
      · match xs, hne with
        | c :: cs, _ =>
          rcases List.cons_prefix_cons.mp hpre with ⟨hcd, -⟩
          have hpd : p d = false := hcd ▸ hall c (by simp)
          rw [List.dropWhile_cons, hpd]
          simpa using hpre.isInfix
      · rw [List.dropWhile_cons]
        by_cases hd : p d
        · simpa [hd] using ih hinf
        · simpa [hd] using List.infix_cons hinf

lemma fence_infix_trimList {l : List Char} (h : fenceChars <:+: l) :
    fenceChars <:+: trimList l := by
  have hne : fenceChars ≠ [] := by decide
  have hall : ∀ a ∈ fenceChars, Char.isWhitespace a = false := by decide
  have h1 : fenceChars <:+: l.dropWhile Char.isWhitespace :=
    infix_dropWhile_of_all hne hall h
  have hrev : fenceChars.reverse = fenceChars := by decide
  have h2 : fenceChars <:+: (l.dropWhile Char.isWhitespace).reverse := by
    rw [← hrev]
    exact List.reverse_infix.mpr h1
  have h3 : fenceChars <:+:
      ((l.dropWhile Char.isWhitespace).reverse.dropWhile Char.isWhitespace) :=
    infix_dropWhile_of_all hne hall h2
  unfold trimList
  rw [← hrev]
  exact List.reverse_infix.mpr h3

lemma containsFence_strTrim {s : String} (h : containsFence s = true) :
    containsFence (strTrim s) = true := by
  unfold containsFence at h ⊢
  rw [decide_eq_true_iff] at h ⊢
  exact fence_infix_trimList h

/-! ## Renderer value lemmas -/

lemma renderDescription_some (meta : RepoMetadata) (g : GeneratedSections)
    (s : String) (h : g.description = some (.str s)) :
    renderDescription meta g = .ok (strTrim s) := by
  unfold renderDescription
  rw [h]
  rfl

lemma renderDescription_none_some (meta : RepoMetadata) (g : GeneratedSections)
    (s : String) (hg : g.description = none) (hm : meta.description = some s) :
    renderDescription meta g = .ok (strTrim s) := by
  unfold renderDescription
  rw [hg, hm]
  rfl

lemma renderDescription_none_none (meta : RepoMetadata) (g : GeneratedSections)
    (hg : g.description = none) (hm : meta.description = none) :
    renderDescription meta g = .ok "Not specified." := by
  unfold renderDescription
  rw [hg, hm]
  rfl

lemma renderFeatures_none (g : GeneratedSections) (h : g.features = none) :
    renderFeatures g = .ok ["- Not specified."] := by
  unfold renderFeatures featuresArr
  rw [h]
  rfl

lemma renderInstallation_none (g : GeneratedSections)
    (h : g.installation = none) :
    renderInstallation g = .ok "```bash\nNot specified.\n```" := by
  unfold renderInstallation
  rw [h]
  rfl

lemma renderInstallation_some (g : GeneratedSections) (s : String)
    (h : g.installation = some (.str s)) :
    renderInstallation g = .ok (if containsFence (strTrim s) then strTrim s
      else "```bash\n" ++ strTrim s ++ "\n```") := by
  unfold renderInstallation
  rw [h]
  rfl

lemma renderUsage_none (g : GeneratedSections) (h : g.usage = none) :
    renderUsage g = .ok "Not specified." := by
  unfold renderUsage
  rw [h]
  rfl

lemma renderUsage_some (g : GeneratedSections) (u : String)
    (h : g.usage = some (.str u)) :
    renderUsage g = .ok (if containsFence (strTrim u) then strTrim u
      else if strTrim u != "Not specified." then "```\n" ++ strTrim u ++ "\n```"
      else strTrim u) := by
  unfold renderUsage
  rw [h]
  rfl

/-! ## Concrete records shared by several evaluations -/

/-- A concrete metadata record with a real description. -/
def cMeta : RepoMetadata :=
  ⟨"acme", "widget", "widget", some "A widget.", [], none, "main", none, [], []⟩

/-- A concrete metadata record with no description. -/
def cMeta2 : RepoMetadata :=
  ⟨"acme", "widget", "widget", none, [], none, "main", none, [], []⟩

/-- A concrete repo-info response matching `cMeta`. -/
def cRepoInfo : GhRepoInfo :=
  ⟨some "widget", some "A widget.", none, "main", none, none⟩

/-! ## Claim C2 -/

/-- C2 (amended): when an optional narrative field is omitted, the
rendered sections fall back as the code actually does — Description to
`metadata.description` (trimmed) if present else the literal
`"Not specified."`; Features to the single bullet `"- Not specified."`;
Installation to the placeholder wrapped in a bash fence; Usage to the
unfenced literal `"Not specified."`.  Present-but-empty string fields are
rendered as their (empty) content, not replaced by the placeholder. -/
theorem c2_thm (meta : RepoMetadata) (g : GeneratedSections) :
    (g.description = none → meta.description = none →
      renderDescription meta g = .ok "Not specified.") ∧
    (∀ s, g.description = none → meta.description = some s →
      renderDescription meta g = .ok (strTrim s)) ∧
    (g.features = none → renderFeatures g = .ok ["- Not specified."]) ∧
    (g.installation = none →
      renderInstallation g = .ok "```bash\nNot specified.\n```") ∧
    (g.usage = none → renderUsage g = .ok "Not specified.") :=
  ⟨fun hg hm => renderDescription_none_none meta g hg hm,
   fun s hg hm => renderDescription_none_some meta g s hg hm,
   fun h => renderFeatures_none g h,
   fun h => renderInstallation_none g h,
   fun h => renderUsage_none g h⟩

/-- C2 counterexample: an omitted installation renders as a fenced
placeholder, not the literal `"Not specified."`; and an empty-string
narrative description renders as the empty string, not as the metadata
description and not as the placeholder. -/
theorem c2_counterexample :
    (renderInstallation {} = .ok "```bash\nNot specified.\n```" ∧
      ("```bash\nNot specified.\n```" : String) ≠ "Not specified.") ∧
    renderDescription cMeta { description := some (.str "") } = .ok "" :=
  ⟨⟨renderInstallation_none {} rfl, by decide⟩, rfl⟩

/-- C2 witness: the amended fallback law evaluated on the all-omitted
narrative record against a metadata record with no description. -/
theorem c2_witness :
    renderDescription cMeta2 {} = .ok "Not specified." ∧
    renderFeatures {} = .ok ["- Not specified."] ∧
    renderInstallation {} = .ok "```bash\nNot specified.\n```" ∧
    renderUsage {} = .ok "Not specified." := by
  have h := c2_thm cMeta2 {}
  exact ⟨h.1 rfl rfl, h.2.2.1 rfl, h.2.2.2.1 rfl, h.2.2.2.2 rfl⟩

/-! ## Claim C9 -/

/-- C9: fencing is applied at most once — an installation value that
already contains a fence is rendered as its trimmed self, with no second
fence; the usage value is fenced exactly when it neither contains a fence
nor equals the literal `"Not specified."` after trimming. -/
theorem c9_thm (g : GeneratedSections) (s u : String)
    (hi : g.installation = some (.str s)) (hf : containsFence s = true)
    (hu : g.usage = some (.str u)) :
    renderInstallation g = .ok (strTrim s) ∧
    (containsFence (strTrim u) = true → renderUsage g = .ok (strTrim u)) ∧
    (containsFence (strTrim u) = false → strTrim u = "Not specified." →
      renderUsage g = .ok "Not specified.") ∧
    (containsFence (strTrim u) = false → strTrim u ≠ "Not specified." →
      renderUsage g = .ok ("```\n" ++ strTrim u ++ "\n```")) := by
  have htf := containsFence_strTrim hf
  refine ⟨?_, ?_, ?_, ?_⟩
  · rw [renderInstallation_some g s hi, htf]
    simp
  · intro h
    rw [renderUsage_some g u hu, h]
    simp
  · intro h1 h2
    rw [renderUsage_some g u hu, h1]
    simp [h2]
  · intro h1 h2
    rw [renderUsage_some g u hu, h1]
    simp [bne_iff_ne, h2]

/-- A concrete narrative record with a pre-fenced installation. -/
def c9Gen : GeneratedSections :=
  { installation := some (.str "```sh\nnpm install\n```"),
    usage := some (.str "run it") }

/-- C9 witness: the fence-idempotence theorem evaluated on a pre-fenced
installation and a plain usage string. -/
theorem c9_witness :
    containsFence "```sh\nnpm install\n```" = true ∧
    renderInstallation c9Gen = .ok (strTrim "```sh\nnpm install\n```") ∧
    renderUsage c9Gen = .ok ("```\n" ++ strTrim "run it" ++ "\n```") := by
  have h := c9_thm c9Gen "```sh\nnpm install\n```" "run it" rfl
    (by decide) rfl
  exact ⟨by decide, h.1, h.2.2.2 (by decide) (by decide)⟩

/-! ## Claim C4 -/

/-- C4 (amended): parsing the generative reply shape-checks only the
`features` field (dropped unless it is an array, kept element-unchecked
when it is); `description`, `installation` and `usage` are copied through
whatever their shape; total parse failure yields the empty record. -/
theorem c4_thm :
    parseGenerated none = {} ∧
    (∀ fs v, lookupField fs "description" = some v →
      (parseGenerated (some (.obj fs))).description = some v) ∧
    (∀ fs v, lookupField fs "installation" = some v →
      (parseGenerated (some (.obj fs))).installation = some v) ∧
    (∀ fs v, lookupField fs "usage" = some v →
      (parseGenerated (some (.obj fs))).usage = some v) ∧
    (∀ fs v, lookupField fs "features" = some v → isArrJson v = false →
      (parseGenerated (some (.obj fs))).features = none) ∧
    (∀ fs xs, lookupField fs "features" = some (.arr xs) →
      (parseGenerated (some (.obj fs))).features = some xs) := by
  refine ⟨rfl, ?_, ?_, ?_, ?_, ?_⟩
  · intro fs v h
    simp [parseGenerated, h]
  · intro fs v h
    simp [parseGenerated, h]
  · intro fs v h
    simp [parseGenerated, h]
  · intro fs v h hv
    simp only [parseGenerated]
    rw [h]
    cases v <;> simp_all [isArrJson]
  · intro fs xs h
    simp [parseGenerated, h]

/-- C4 counterexample: a description of the wrong shape (a number) is not
dropped — it is kept verbatim in the record, while the claim requires it
to be dropped individually. -/
theorem c4_counterexample :
    (parseGenerated (some (.obj [("description", Json.num 7),
        ("usage", Json.str "u")]))).description = some (Json.num 7) ∧
    (parseGenerated (some (.obj [("description", Json.num 7),
        ("usage", Json.str "u")]))).usage = some (Json.str "u") :=
  ⟨rfl, rfl⟩

/-- C4 witness: total parse failure yields the empty record, and a
non-array features value is dropped. -/
theorem c4_witness :
    parseGenerated none = {} ∧
    (parseGenerated (some (.obj [("features", Json.str "x")]))).features
      = none := by
  refine ⟨c4_thm.1, ?_⟩
  exact c4_thm.2.2.2.2.1 [("features", Json.str "x")] (Json.str "x")
    rfl rfl

/-! ## Claim C10 -/

/-- A generative reply whose features array contains a non-string. -/
def c10Payload : Json := .obj [("features", .arr [.num 42])]

/-- C10: a reply parsing to a features array with a non-string element is
not dropped and not failed soft: the element survives parsing, assembly
throws a TypeError, and the whole request ends as a 500 `INTERNAL_ERROR`
with no document although the metadata calls all succeeded. -/
theorem c10_thm :
    (parseGenerated (some c10Payload)).features = some [Json.num 42] ∧
    buildReadme cMeta (parseGenerated (some c10Payload)) {} =
      .error "TypeError: trim is not a function" ∧
    generateReadmeRoute ⟨some "t", some "k"⟩
        (some "https://github.com/acme/widget")
        (.success cRepoInfo) (.success []) (.success ⟨some []⟩)
        (.reply (some c10Payload)) =
      .errorRes 500 "Unexpected server error." "INTERNAL_ERROR" :=
  ⟨rfl, rfl, by decide⟩

/-! ## Claim C1 -/

lemma splitOnComma_ne_nil (l : List Char) : splitOnComma l ≠ [] := by
  cases l with
  | nil => simp [splitOnComma]
  | cons c rest =>
      by_cases hc : c = ','
      · simp [splitOnComma, hc]
      · cases h2 : splitOnComma rest with
        | nil => simp [splitOnComma, hc, h2]
        | cons a b => simp [splitOnComma, hc, h2]

lemma jsJoin_cons_ne (sep x : String) (xs : List String) (hx : x ≠ "") :
    jsJoin sep (x :: xs) ≠ "" := by
  cases xs with
  | nil => simpa [jsJoin] using hx
  | cons y ys =>
      show x ++ sep ++ jsJoin sep (y :: ys) ≠ ""
      exact str_append_ne_left _ _ (str_append_ne_left _ _ hx)

lemma jsJoin_split_bullets_ne (t : String) :
    jsJoin "\n" ((splitCommaWs t).map (fun x => "- " ++ x)) ≠ "" := by
  cases hsp : splitOnComma t.data with
  | nil => exact absurd hsp (splitOnComma_ne_nil t.data)
  | cons seg segs =>
      have hs : splitCommaWs t
          = (⟨seg⟩ : String) ::
              segs.map (fun l => (⟨l.dropWhile Char.isWhitespace⟩ : String)) := by
        unfold splitCommaWs
        rw [hsp]
      rw [hs, List.map_cons]
      exact jsJoin_cons_ne _ _ _ (str_append_ne_left "- " _ (by decide))

lemma renderTechStack_ne (meta : RepoMetadata) : renderTechStack meta ≠ "" := by
  unfold renderTechStack
  exact jsJoin_split_bullets_ne _

lemma renderStructure_ne (meta : RepoMetadata) : renderStructure meta ≠ "" := by
  rcases hmt : meta.tree with - | ⟨x, xs⟩
  · simp [renderStructure, hmt]
  · by_cases hx : x = "Not specified."
    · simp [renderStructure, hmt, hx]
    · simp [renderStructure, hmt, hx]
      exact str_append_ne_left _ _ (str_append_ne_left _ _ (by decide))

lemma renderLicense_ne (meta : RepoMetadata)
    (h : ∀ s, meta.license = some s → s ≠ "") : renderLicense meta ≠ "" := by
  unfold renderLicense
  cases hl : meta.license with
  | none => decide
  | some s =>
      simp only [Option.getD_some]
      exact h s hl

lemma titleOf_ne (meta : RepoMetadata) : titleOf meta ≠ "" := by
  unfold titleOf
  by_cases hn : meta.name = ""
  · rw [if_pos hn]
    exact str_append_ne_left _ _ (str_append_ne_right _ _ (by decide))
  · rw [if_neg hn]
    exact hn

lemma mapM_jsTrimJson_ok (l : List Json) (h : ∀ j ∈ l, isStrJson j = true) :
    ∃ ts, l.mapM jsTrimJson = Except.ok ts := by
  induction l with
  | nil => exact ⟨[], by rw [List.mapM_nil]; rfl⟩
  | cons j l ih =>
      obtain ⟨ts, hts⟩ := ih (fun a ha => h a (by simp [ha]))
      have hj := h j (by simp)
      cases j with
      | str s =>
          refine ⟨strTrim s :: ts, ?_⟩
          rw [List.mapM_cons,
            show jsTrimJson (Json.str s) = Except.ok (strTrim s) from rfl, hts]
          rfl
      | null => simp [isStrJson] at hj
      | bool b => simp [isStrJson] at hj
      | num n => simp [isStrJson] at hj
      | arr a => simp [isStrJson] at hj
      | obj o => simp [isStrJson] at hj

lemma renderFeatures_spec (g : GeneratedSections)
    (h : (g.features.getD []).all isStrJson = true) :
    ∃ bs, renderFeatures g = .ok bs ∧ bs ≠ [] ∧ ∀ b ∈ bs, b ≠ "" := by
  obtain ⟨ts, hts⟩ :=
    mapM_jsTrimJson_ok _ (by simpa [List.all_eq_true] using h)
  refine ⟨((if (ts.filter (fun t => t != "")).isEmpty then ["Not specified."]
      else ts.filter (fun t => t != "")).map (fun f => "- " ++ f)), ?_, ?_, ?_⟩
  · unfold renderFeatures featuresArr
    rw [hts]
  · rw [Ne, List.map_eq_nil_iff]
    by_cases he : (ts.filter (fun t => t != "")).isEmpty
    · simp [he]
    · simp only [he, if_false, Bool.false_eq_true]
      intro hf
      exact he (by simp [hf])
  · intro b hb
    rw [List.mem_map] at hb
    obtain ⟨a, -, hab⟩ := hb
    rw [← hab]
    exact str_append_ne_left "- " a (by decide)

/-- The fixed eight-section shape of the assembled parts list. -/
def sectionShape (title desc : String) (featureParts : List String)
    (inst usg tech struct lic : String) : List String :=
  ["# " ++ title, "", "## Description", desc, "", "## Features"]
    ++ featureParts
    ++ ["", "## Installation Guide", inst, "", "## Usage", usg, "",
        "## Tech Stack", tech, "", "## Project Structure", struct, "",
        "## License Information", lic, ""]

/-- The parts list carries exactly the eight titled sections in the fixed
order, each with non-empty content (this is the claim's notion of a
complete document, stated on the parts the assembler pushes). -/
def EightNonEmptySections (parts : List String) : Prop :=
  ∃ title desc featureParts inst usg tech struct lic,
    parts = sectionShape title desc featureParts inst usg tech struct lic ∧
    title ≠ "" ∧ desc ≠ "" ∧ featureParts ≠ [] ∧
    (∀ b ∈ featureParts, b ≠ "") ∧ inst ≠ "" ∧ usg ≠ "" ∧
    tech ≠ "" ∧ struct ≠ "" ∧ lic ≠ ""

/-- C1 (amended): for every metadata record and every well-typed
narrative record whose present description (narrative or metadata) does
not trim to the empty string and whose license, when present, is
non-empty, assembly is total and produces exactly the eight sections in
the fixed order, each non-empty.  (Without those empty-string provisos the
Description or License content can be the empty string.) -/
theorem c1_thm (meta : RepoMetadata) (g : GeneratedSections)
    (hw : g.wellTyped = true)
    (hgd : ∀ s, g.description = some (.str s) → strTrim s ≠ "")
    (hmd : ∀ s, meta.description = some s → strTrim s ≠ "")
    (hml : ∀ s, meta.license = some s → s ≠ "") :
    ∃ parts, buildReadmeParts meta g = .ok parts ∧
      EightNonEmptySections parts := by
  rw [GeneratedSections.wellTyped] at hw
  simp only [Bool.and_eq_true] at hw
  obtain ⟨⟨⟨hwd, hwf⟩, hwi⟩, hwu⟩ := hw
  obtain ⟨d, hD, hdne⟩ : ∃ d, renderDescription meta g = .ok d ∧ d ≠ "" := by
    cases hgdesc : g.description with
    | none =>
        cases hmdesc : meta.description with
        | none =>
            exact ⟨_, renderDescription_none_none meta g hgdesc hmdesc,
              by decide⟩
        | some s =>
            exact ⟨_, renderDescription_none_some meta g s hgdesc hmdesc,
              hmd s hmdesc⟩
    | some j =>
        rw [hgdesc] at hwd
        cases j with
        | str s =>
            exact ⟨_, renderDescription_some meta g s hgdesc, hgd s hgdesc⟩
        | null => simp [wellTypedOpt, isStrJson] at hwd
        | bool b => simp [wellTypedOpt, isStrJson] at hwd
        | num n => simp [wellTypedOpt, isStrJson] at hwd
        | arr a => simp [wellTypedOpt, isStrJson] at hwd
        | obj o => simp [wellTypedOpt, isStrJson] at hwd
  obtain ⟨bs, hF, hbne, hball⟩ := renderFeatures_spec g hwf
  obtain ⟨i, hI, hine⟩ : ∃ i, renderInstallation g = .ok i ∧ i ≠ "" := by
    cases hgi : g.installation with
    | none => exact ⟨_, renderInstallation_none g hgi, by decide⟩
    | some j =>
        rw [hgi] at hwi
        cases j with
        | str s =>
            refine ⟨_, renderInstallation_some g s hgi, ?_⟩
            by_cases hcf : containsFence (strTrim s) = true
            · rw [if_pos hcf]
              exact containsFence_ne_empty hcf
            · rw [if_neg hcf]
              exact str_append_ne_left _ _ (str_append_ne_left _ _ (by decide))
        | null => simp [wellTypedOpt, isStrJson] at hwi
        | bool b => simp [wellTypedOpt, isStrJson] at hwi
        | num n => simp [wellTypedOpt, isStrJson] at hwi
        | arr a => simp [wellTypedOpt, isStrJson] at hwi
        | obj o => simp [wellTypedOpt, isStrJson] at hwi
  obtain ⟨u, hU, hune⟩ : ∃ u, renderUsage g = .ok u ∧ u ≠ "" := by
    cases hgu : g.usage with
    | none => exact ⟨_, renderUsage_none g hgu, by decide⟩
    | some j =>
        rw [hgu] at hwu
        cases j with
        | str s =>
            refine ⟨_, renderUsage_some g s hgu, ?_⟩
            by_cases hcf : containsFence (strTrim s) = true
            · rw [if_pos hcf]
              exact containsFence_ne_empty hcf
            · rw [if_neg hcf]
              by_cases hbe : strTrim s = "Not specified."
              · have hb : (strTrim s != "Not specified.") = false := by
                  simp [bne, hbe]
                rw [hb]
                simp only [Bool.false_eq_true, if_false]
                rw [hbe]
                decide
              · have hb : (strTrim s != "Not specified.") = true := by
                  simp [bne_iff_ne, hbe]
                rw [hb]
                simp only [if_true]
                exact str_append_ne_left _ _ (str_append_ne_left _ _ (by decide))
        | null => simp [wellTypedOpt, isStrJson] at hwu
        | bool b => simp [wellTypedOpt, isStrJson] at hwu
        | num n => simp [wellTypedOpt, isStrJson] at hwu
        | arr a => simp [wellTypedOpt, isStrJson] at hwu
        | obj o => simp [wellTypedOpt, isStrJson] at hwu
  refine ⟨sectionShape (titleOf meta) d bs i u (renderTechStack meta)
    (renderStructure meta) (renderLicense meta), ?_, ?_⟩
  · unfold buildReadmeParts
    rw [hD, hF, hI, hU]
    rfl
  · exact ⟨_, _, _, _, _, _, _, _, rfl, titleOf_ne meta, hdne, hbne, hball,
      hine, hune, renderTechStack_ne meta, renderStructure_ne meta,
      renderLicense_ne meta hml⟩

/-- The concrete parts list produced for `cMeta2` and an empty-string
narrative description. -/
def c1Parts : List String :=
  sectionShape "widget" "" ["- Not specified."]
    "```bash\nNot specified.\n```" "Not specified." "- Not specified."
    "Not specified." "Not specified."

/-- C1 counterexample: a well-typed narrative record whose description is
the empty string assembles to a parts list whose Description content is
empty, so the document does not have eight non-empty sections. -/
theorem c1_counterexample :
    GeneratedSections.wellTyped { description := some (.str "") } = true ∧
    buildReadmeParts cMeta2 { description := some (.str "") } = .ok c1Parts ∧
    ¬ EightNonEmptySections c1Parts := by
  refine ⟨by decide, rfl, ?_⟩
  rintro ⟨t, d, fp, i, u, te, st, l, hsh, -, hd, -⟩
  have h3 : c1Parts[3]? = some d := by
    rw [hsh]
    rfl
  have h0 : c1Parts[3]? = some "" := rfl
  rw [h0] at h3
  exact hd (Option.some.inj h3).symm

/-- C1 witness: the amended theorem evaluated at `cMeta` and the empty
narrative record. -/
theorem c1_witness :
    ∃ parts, buildReadmeParts cMeta {} = .ok parts ∧
      EightNonEmptySections parts :=
  c1_thm cMeta {} (by decide)
    (fun s h => nomatch h)
    (fun s h => by
      have he : "A widget." = s := Option.some.inj h
      rw [← he]
      decide)
    (fun s h => nomatch h)

/-! ## Route-level helper lemmas -/

lemma parseRepoUrl_empty : parseRepoUrl "" = none := rfl

lemma strTrim_ne_of_parse {raw owner repo : String}
    (hurl : parseRepoUrl (strTrim raw) = some (owner, repo)) :
    ¬(strTrim raw = "") := by
  intro he
  rw [he, parseRepoUrl_empty] at hurl
  exact Option.noConfusion hurl

lemma wellTyped_applyBackfill (meta : RepoMetadata) (g : GeneratedSections)
    (hg : g.wellTyped = true) : (applyBackfill meta g).wellTyped = true := by
  unfold applyBackfill
  split
  · rw [GeneratedSections.wellTyped] at hg ⊢
    simp only [Bool.and_eq_true] at hg ⊢
    refine ⟨⟨⟨?_, hg.1.1.2⟩, hg.1.2⟩, hg.2⟩
    cases meta.description with
    | none => rfl
    | some s => rfl
  · exact hg

lemma renderDescription_ok (meta : RepoMetadata) (g : GeneratedSections)
    (hw : wellTypedOpt g.description = true) :
    ∃ d, renderDescription meta g = .ok d := by
  cases hgd : g.description with
  | none =>
      cases hm : meta.description with
      | none => exact ⟨_, renderDescription_none_none meta g hgd hm⟩
      | some s => exact ⟨_, renderDescription_none_some meta g s hgd hm⟩
  | some j =>
      rw [hgd] at hw
      cases j with
      | str s => exact ⟨_, renderDescription_some meta g s hgd⟩
      | null => simp [wellTypedOpt, isStrJson] at hw
      | bool b => simp [wellTypedOpt, isStrJson] at hw
      | num n => simp [wellTypedOpt, isStrJson] at hw
      | arr a => simp [wellTypedOpt, isStrJson] at hw
      | obj o => simp [wellTypedOpt, isStrJson] at hw

lemma renderInstallation_ok (g : GeneratedSections)
    (hw : wellTypedOpt g.installation = true) :
    ∃ i, renderInstallation g = .ok i := by
  cases hgi : g.installation with
  | none => exact ⟨_, renderInstallation_none g hgi⟩
  | some j =>
      rw [hgi] at hw
      cases j with
      | str s => exact ⟨_, renderInstallation_some g s hgi⟩
      | null => simp [wellTypedOpt, isStrJson] at hw
      | bool b => simp [wellTypedOpt, isStrJson] at hw
      | num n => simp [wellTypedOpt, isStrJson] at hw
      | arr a => simp [wellTypedOpt, isStrJson] at hw
      | obj o => simp [wellTypedOpt, isStrJson] at hw

lemma renderUsage_ok (g : GeneratedSections)
    (hw : wellTypedOpt g.usage = true) :
    ∃ u, renderUsage g = .ok u := by
  cases hgu : g.usage with
  | none => exact ⟨_, renderUsage_none g hgu⟩
  | some j =>
      rw [hgu] at hw
      cases j with
      | str s => exact ⟨_, renderUsage_some g s hgu⟩
      | null => simp [wellTypedOpt, isStrJson] at hw
      | bool b => simp [wellTypedOpt, isStrJson] at hw
      | num n => simp [wellTypedOpt, isStrJson] at hw
      | arr a => simp [wellTypedOpt, isStrJson] at hw
      | obj o => simp [wellTypedOpt, isStrJson] at hw

lemma buildReadme_total (meta : RepoMetadata) (g : GeneratedSections)
    (filled : FilledFlags) (hw : g.wellTyped = true) :
    ∃ doc, buildReadme meta g filled = .ok doc := by
  rw [GeneratedSections.wellTyped] at hw
  simp only [Bool.and_eq_true] at hw
  obtain ⟨⟨⟨hwd, hwf⟩, hwi⟩, hwu⟩ := hw
  obtain ⟨d, hD⟩ := renderDescription_ok meta g hwd
  obtain ⟨bs, hF, -, -⟩ := renderFeatures_spec g hwf
  obtain ⟨i, hI⟩ := renderInstallation_ok g hwi
  obtain ⟨u, hU⟩ := renderUsage_ok g hwu
  refine ⟨jsJoin "\n"
    (["# " ++ titleOf meta, "", "## Description", d, "", "## Features"]
      ++ bs
      ++ ["", "## Installation Guide", i, "", "## Usage", u, "",
          "## Tech Stack", renderTechStack meta, "",
          "## Project Structure", renderStructure meta, "",
          "## License Information", renderLicense meta, ""]), ?_⟩
  unfold buildReadme buildReadmeParts
  rw [hD, hF, hI, hU]

lemma route_success (env : RouteEnv) (raw owner repo : String)
    (repoOut : HttpResult GhRepoInfo)
    (langsOut : HttpResult (List (String × Nat)))
    (treeOut : HttpResult GhTree) (gem : GeminiOutcome)
    (meta : RepoMetadata) (g : GeneratedSections) (doc : String)
    (htok : jsFalsyStr env.githubToken = false)
    (hkey : jsFalsyStr env.geminiKey = false)
    (hurl : parseRepoUrl (strTrim raw) = some (owner, repo))
    (hmeta : fetchRepoMetadata owner repo repoOut langsOut treeOut = .ok meta)
    (hgem : callGemini gem = .ok g)
    (hdoc : buildReadme meta (applyBackfill meta g)
      (markFilled (applyBackfill meta g)) = .ok doc) :
    generateReadmeRoute env (some raw) repoOut langsOut treeOut gem =
      .okRes ⟨doc, meta.repo ++ "-README.md", meta,
        markFilled (applyBackfill meta g), none⟩ := by
  have hne := strTrim_ne_of_parse hurl
  have hstage : narrativeStage gem = (g, []) := by
    unfold narrativeStage
    rw [hgem]
  simp [generateReadmeRoute, hne, hurl, htok, hkey, hmeta, hstage, hdoc]

lemma route_gemini_error (env : RouteEnv) (raw owner repo : String)
    (repoOut : HttpResult GhRepoInfo)
    (langsOut : HttpResult (List (String × Nat)))
    (treeOut : HttpResult GhTree) (gem : GeminiOutcome)
    (meta : RepoMetadata) (e doc : String)
    (htok : jsFalsyStr env.githubToken = false)
    (hkey : jsFalsyStr env.geminiKey = false)
    (hurl : parseRepoUrl (strTrim raw) = some (owner, repo))
    (hmeta : fetchRepoMetadata owner repo repoOut langsOut treeOut = .ok meta)
    (hgem : callGemini gem = .error e)
    (hdoc : buildReadme meta (applyBackfill meta {})
      (markFilled (applyBackfill meta {})) = .ok doc) :
    generateReadmeRoute env (some raw) repoOut langsOut treeOut gem =
      .okRes ⟨doc, meta.repo ++ "-README.md", meta,
        markFilled (applyBackfill meta {}),
        some [⟨"GEMINI_API_ERROR", ("Gemini API error: " ++ e).take 500⟩]⟩ := by
  have hne := strTrim_ne_of_parse hurl
  have hstage : narrativeStage gem =
      ({}, [⟨"GEMINI_API_ERROR", ("Gemini API error: " ++ e).take 500⟩]) := by
    unfold narrativeStage
    rw [hgem]
  simp [generateReadmeRoute, hne, hurl, htok, hkey, hmeta, hstage, hdoc]

/-! ## Claim C6 -/

/-- C6 (amended): the hosting-provider credential is checked after
parsing, not before — a falsy `GITHUB_TOKEN` is fatal
(`MISSING_GITHUB_TOKEN`, status 500) for every request whose reference
parses, whatever the upstream outcomes; for an invalid reference the parse
error wins. -/
theorem c6_thm (env : RouteEnv) (raw owner repo : String)
    (repoOut : HttpResult GhRepoInfo)
    (langsOut : HttpResult (List (String × Nat)))
    (treeOut : HttpResult GhTree) (gem : GeminiOutcome)
    (htok : jsFalsyStr env.githubToken = true)
    (hurl : parseRepoUrl (strTrim raw) = some (owner, repo)) :
    generateReadmeRoute env (some raw) repoOut langsOut treeOut gem =
      .errorRes 500 "Server missing GITHUB_TOKEN environment variable."
        "MISSING_GITHUB_TOKEN" := by
  have hne := strTrim_ne_of_parse hurl
  simp [generateReadmeRoute, hne, hurl, htok]

/-- C6 counterexample: with no hosting-provider credential configured and
an invalid reference, the result is the parse error, not
`MISSING_GITHUB_TOKEN` — the credential is not checked before parsing. -/
theorem c6_counterexample :
    generateReadmeRoute ⟨none, none⟩ (some "not-a-url")
        (.transport "") (.transport "") (.transport "") (.reply none) =
      .errorRes 400
        "Invalid GitHub repository URL. Expected https://github.com/<owner>/<repo>"
        "INVALID_REPO_URL" := by
  decide

/-- C6 witness: the amended theorem evaluated on a valid reference with an
absent token. -/
theorem c6_witness :
    jsFalsyStr (none : Option String) = true ∧
    generateReadmeRoute ⟨none, some "k"⟩ (some "https://github.com/acme/widget")
        (.transport "") (.transport "") (.transport "") (.reply none) =
      .errorRes 500 "Server missing GITHUB_TOKEN environment variable."
        "MISSING_GITHUB_TOKEN" :=
  ⟨by decide,
    c6_thm ⟨none, some "k"⟩ "https://github.com/acme/widget" "acme"
      "widget" (.transport "") (.transport "") (.transport "") (.reply none)
      (by decide) (by decide)⟩

/-! ## Claim C7 -/

/-- Test for the non-success-HTTP-response outcome. -/
def isHttpFailure {α : Type} : HttpResult α → Prop
  | .failure _ _ _ => True
  | _ => False

lemma fetchRepoMetadata_error_of_failure (owner repo : String)
    (a : HttpResult GhRepoInfo) (b : HttpResult (List (String × Nat)))
    (c : HttpResult GhTree)
    (h : isHttpFailure a ∨ isHttpFailure b ∨ isHttpFailure c) :
    ∃ e, fetchRepoMetadata owner repo a b c = .error e := by
  cases a <;> cases b <;> cases c <;>
    simp_all [fetchRepoMetadata, fetchJson, isHttpFailure]

/-- C7: metadata fetching is all-or-nothing — a non-success HTTP response
from any of the three upstream calls makes the whole fetch fail with no
metadata record, and the request terminates as a 502 `GITHUB_API_ERROR`
with no document. -/
theorem c7_thm (env : RouteEnv) (raw owner repo : String)
    (repoOut : HttpResult GhRepoInfo)
    (langsOut : HttpResult (List (String × Nat)))
    (treeOut : HttpResult GhTree) (gem : GeminiOutcome)
    (htok : jsFalsyStr env.githubToken = false)
    (hurl : parseRepoUrl (strTrim raw) = some (owner, repo))
    (hfail : isHttpFailure repoOut ∨ isHttpFailure langsOut ∨
      isHttpFailure treeOut) :
    (∃ e, fetchRepoMetadata owner repo repoOut langsOut treeOut = .error e) ∧
    (∃ msg, generateReadmeRoute env (some raw) repoOut langsOut treeOut gem =
      .errorRes 502 msg "GITHUB_API_ERROR") := by
  obtain ⟨e, he⟩ :=
    fetchRepoMetadata_error_of_failure owner repo repoOut langsOut treeOut hfail
  have hne := strTrim_ne_of_parse hurl
  refine ⟨⟨e, he⟩, ⟨("GitHub API error: " ++ e).take 500, ?_⟩⟩
  simp [generateReadmeRoute, hne, hurl, htok, he]

/-- C7 witness: the theorem evaluated on a 404 from the repo-info call. -/
theorem c7_witness :
    (∃ e, fetchRepoMetadata "acme" "widget"
      (.failure 404 "Not Found" "") (.success []) (.success ⟨some []⟩)
        = .error e) ∧
    (∃ msg, generateReadmeRoute ⟨some "t", none⟩
      (some "https://github.com/acme/widget")
      (.failure 404 "Not Found" "") (.success []) (.success ⟨some []⟩)
      (.reply none) = .errorRes 502 msg "GITHUB_API_ERROR") :=
  c7_thm ⟨some "t", none⟩ "https://github.com/acme/widget" "acme"
    "widget" (.failure 404 "Not Found" "") (.success []) (.success ⟨some []⟩)
    (.reply none) (by decide) (by decide) (Or.inl trivial)

/-! ## Claim C3 -/

/-- C3: the narrative stage fails soft — a transport error, a non-success
response, or an unparseable payload each yield the empty narrative record
at the stage boundary, and a request that got past the earlier checks with
successful metadata calls still produces a success envelope (the pipeline
is not aborted by the narrative stage). -/
theorem c3_thm (gem : GeminiOutcome)
    (h : (∃ m, gem = .transportFail m) ∨ (∃ st t, gem = .httpFail st t) ∨
      gem = .reply none) :
    (narrativeStage gem).1 = {} ∧
    ∀ (env : RouteEnv) (raw owner repo : String) (ri : GhRepoInfo)
      (langs : List (String × Nat)) (tr : GhTree),
      jsFalsyStr env.githubToken = false →
      jsFalsyStr env.geminiKey = false →
      parseRepoUrl (strTrim raw) = some (owner, repo) →
      ∃ p, generateReadmeRoute env (some raw) (.success ri) (.success langs)
        (.success tr) gem = .okRes p := by
  have h1 : (narrativeStage gem).1 = {} := by
    rcases h with ⟨m, rfl⟩ | ⟨st, t, rfl⟩ | rfl <;> rfl
  refine ⟨h1, ?_⟩
  intro env raw owner repo ri langs tr htok hkey hurl
  obtain ⟨meta, hmeta⟩ : ∃ meta,
      fetchRepoMetadata owner repo (.success ri) (.success langs)
        (.success tr) = .ok meta := ⟨_, rfl⟩
  obtain ⟨doc, hdoc⟩ := buildReadme_total meta (applyBackfill meta {})
    (markFilled (applyBackfill meta {})) (wellTyped_applyBackfill meta {} rfl)
  rcases h with ⟨m, rfl⟩ | ⟨st, t, rfl⟩ | rfl
  · exact ⟨_, route_gemini_error env raw owner repo _ _ _ _ meta m doc
      htok hkey hurl hmeta rfl hdoc⟩
  · exact ⟨_, route_gemini_error env raw owner repo _ _ _ _ meta
      ("Gemini API error " ++ toString st ++ ": " ++ t) doc
      htok hkey hurl hmeta rfl hdoc⟩
  · exact ⟨_, route_success env raw owner repo _ _ _ _ meta {} doc
      htok hkey hurl hmeta rfl hdoc⟩

/-- C3 witness: the theorem evaluated on a non-success generative
response, with all metadata calls succeeding. -/
theorem c3_witness :
    (narrativeStage (.httpFail 500 "boom")).1 = {} ∧
    ∃ p, generateReadmeRoute ⟨some "t", some "k"⟩
      (some "https://github.com/acme/widget")
      (.success cRepoInfo) (.success []) (.success ⟨some []⟩)
      (.httpFail 500 "boom") = .okRes p := by
  have h := c3_thm (.httpFail 500 "boom") (Or.inr (Or.inl ⟨500, "boom", rfl⟩))
  exact ⟨h.1, h.2 ⟨some "t", some "k"⟩ "https://github.com/acme/widget"
    "acme" "widget" cRepoInfo [] ⟨some []⟩ (by decide) (by decide) (by decide)⟩

/-! ## Claim C8 -/

/-- C8 (amended): in a successful request the response's `FilledFlags`
are the truthiness of each field of the narrative record after the
orchestrator's description back-fill — so the description flag can be true
when the content came from the metadata rather than the generator, and the
features flag is true for any returned array, even an empty one. -/
theorem c8_thm (env : RouteEnv) (raw owner repo : String)
    (repoOut : HttpResult GhRepoInfo)
    (langsOut : HttpResult (List (String × Nat)))
    (treeOut : HttpResult GhTree) (gem : GeminiOutcome)
    (meta : RepoMetadata) (g : GeneratedSections)
    (htok : jsFalsyStr env.githubToken = false)
    (hkey : jsFalsyStr env.geminiKey = false)
    (hurl : parseRepoUrl (strTrim raw) = some (owner, repo))
    (hmeta : fetchRepoMetadata owner repo repoOut langsOut treeOut = .ok meta)
    (hgem : callGemini gem = .ok g) (hw : g.wellTyped = true) :
    ∃ p, generateReadmeRoute env (some raw) repoOut langsOut treeOut gem =
      .okRes p ∧ p.filledWithGemini = markFilled (applyBackfill meta g) := by
  obtain ⟨doc, hdoc⟩ := buildReadme_total meta (applyBackfill meta g)
    (markFilled (applyBackfill meta g)) (wellTyped_applyBackfill meta g hw)
  exact ⟨_, route_success env raw owner repo repoOut langsOut treeOut gem
    meta g doc htok hkey hurl hmeta hgem hdoc, rfl⟩

/-- Projection of the description flag out of a route result. -/
def filledDescOf : RouteResult → Option Bool
  | .okRes p => some p.filledWithGemini.description
  | .errorRes _ _ _ => none

/-- C8 counterexample: the generator produced nothing (its reply did not
parse), yet the response marks the description section as filled, because
the orchestrator back-fills it from the short metadata description before
marking — so a flag can be true although the generator did not produce
that section's content. -/
theorem c8_counterexample :
    callGemini (.reply none) = .ok {} ∧
    filledDescOf (generateReadmeRoute ⟨some "t", some "k"⟩
      (some "https://github.com/acme/widget")
      (.success ⟨some "widget", some "abc", none, "main", none, none⟩)
      (.success []) (.success ⟨some []⟩) (.reply none)) = some true :=
  ⟨rfl, by decide⟩

/-- C8 witness: the amended theorem evaluated on a generator reply that
fills only the usage section. -/
theorem c8_witness :
    ∃ p, generateReadmeRoute ⟨some "t", some "k"⟩
        (some "https://github.com/acme/widget")
        (.success cRepoInfo) (.success []) (.success ⟨some []⟩)
        (.reply (some (.obj [("usage", Json.str "use it")]))) =
      .okRes p ∧ p.filledWithGemini = markFilled (applyBackfill cMeta
        { usage := some (Json.str "use it") }) :=
  c8_thm ⟨some "t", some "k"⟩ "https://github.com/acme/widget" "acme"
    "widget" (.success cRepoInfo) (.success []) (.success ⟨some []⟩)
    (.reply (some (.obj [("usage", Json.str "use it")]))) cMeta
    { usage := some (Json.str "use it") }
    (by decide) (by decide) (by decide) rfl rfl (by decide)

/-! ## Claim C5 -/

/-- Case-insensitive equality of a pattern against a list of characters
(pattern first), character-wise. -/
def ciEqList : List Char → List Char → Bool
  | [], [] => true
  | p :: ps, c :: cs => ciEqChar p c && ciEqList ps cs
  | _, _ => false

lemma stripCI_some_iff (p l r : List Char) :
    stripCI p l = some r ↔ ∃ pre, l = pre ++ r ∧ ciEqList p pre = true := by
  induction p generalizing l with
  | nil =>
      constructor
      · intro h
        refine ⟨[], ?_, rfl⟩
        simpa [stripCI] using h
      · rintro ⟨pre, hl, hci⟩
        cases pre with
        | nil => simpa [stripCI] using hl
        | cons a as => simp [ciEqList] at hci
  | cons p ps ih =>
      cases l with
      | nil =>
          constructor
          · intro h
            simp [stripCI] at h
          · rintro ⟨pre, hl, hci⟩
            rcases List.append_eq_nil.mp hl.symm with ⟨hp, -⟩
            rw [hp] at hci
            simp [ciEqList] at hci
      | cons c cs =>
          by_cases hpc : ciEqChar p c = true
          · rw [show stripCI (p :: ps) (c :: cs) = stripCI ps cs from by
              simp [stripCI, hpc]]
            rw [ih cs]
            constructor
            · rintro ⟨pre, hcs, hci⟩
              exact ⟨c :: pre, by simp [hcs], by simp [ciEqList, hpc, hci]⟩
            · rintro ⟨pre, hl, hci⟩
              cases pre with
              | nil => simp [ciEqList] at hci
              | cons a as =>
                  simp only [List.cons_append, List.cons.injEq] at hl
                  obtain ⟨hca, hcs⟩ := hl
                  simp only [ciEqList, Bool.and_eq_true] at hci
                  exact ⟨as, hcs, hci.2⟩
          · rw [show stripCI (p :: ps) (c :: cs) = none from by
              simp [stripCI, hpc]]
            constructor
            · intro h
              exact absurd h (by simp)
            · rintro ⟨pre, hl, hci⟩
              cases pre with
              | nil => simp [ciEqList] at hci
              | cons a as =>
                  simp only [List.cons_append, List.cons.injEq] at hl
                  simp only [ciEqList, Bool.and_eq_true] at hci
                  rw [← hl.1] at hci
                  exact absurd hci.1 hpc

lemma takeWhile_mem_pred {α : Type} {p : α → Bool} {l : List α} {a : α}
    (h : a ∈ l.takeWhile p) : p a = true := by
  induction l with
  | nil => simp [List.takeWhile] at h
  | cons x xs ih =>
      rw [List.takeWhile_cons] at h
      by_cases hx : p x = true
      · rw [if_pos hx] at h
        rcases List.mem_cons.mp h with rfl | h2
        · exact hx
        · exact ih h2
      · rw [if_neg hx] at h
        simp at h

lemma takeWhile_append_not {p : Char → Bool} (xs : List Char) (y : Char)
    (ys : List Char) (hxs : ∀ c ∈ xs, p c = true) (hy : p y = false) :
    (xs ++ y :: ys).takeWhile p = xs ∧ (xs ++ y :: ys).dropWhile p = y :: ys := by
  induction xs with
  | nil => simp [List.takeWhile_cons, List.dropWhile_cons, hy]
  | cons a as ih =>
      have ha : p a = true := hxs a (by simp)
      obtain ⟨h1, h2⟩ := ih (fun c hc => hxs c (by simp [hc]))
      constructor
      · simp [List.takeWhile_cons, ha, h1]
      · simp [List.dropWhile_cons, ha, h2]

lemma takeWhile_all {p : Char → Bool} (xs : List Char)
    (hxs : ∀ c ∈ xs, p c = true) :
    xs.takeWhile p = xs ∧ xs.dropWhile p = [] := by
  induction xs with
  | nil => simp
  | cons a as ih =>
      have ha : p a = true := hxs a (by simp)
      obtain ⟨h1, h2⟩ := ih (fun c hc => hxs c (by simp [hc]))
      constructor
      · simp [List.takeWhile_cons, ha, h1]
      · simp [List.dropWhile_cons, ha, h2]

lemma repoChar_slash : repoChar '/' = false := by decide

lemma repoChar_hash : repoChar '#' = false := by decide

/-- Tails tolerated by the claim's reading of the pattern: nothing, a
trailing slash, or a fragment of any length. -/
def SpecTail (t : List Char) : Prop :=
  t = [] ∨ t = ['/'] ∨ ∃ f, t = '#' :: f

/-- Tails the code's regex actually accepts: nothing, a trailing slash, a
bare hash, or a hash followed by exactly one non-line-terminator
character. -/
def CodeTail (t : List Char) : Prop :=
  t = [] ∨ t = ['/'] ∨ t = ['#'] ∨ ∃ c, t = ['#', c] ∧ dotOk c = true

/-- Decomposition of a URL as `https://<host>/<owner>/<name><tail>`: a
case-insensitive host prefix, a non-empty owner and name over the
alphanumeric-dot-underscore-hyphen class, and a tail governed by the given
tail discipline. -/
def UrlShape (Tail : List Char → Prop) (s : String) : Prop :=
  ∃ pre owner name tail,
    s.data = pre ++ (owner ++ '/' :: (name ++ tail)) ∧
    ciEqList hostChars pre = true ∧
    owner ≠ [] ∧ (∀ c ∈ owner, repoChar c = true) ∧
    name ≠ [] ∧ (∀ c ∈ name, repoChar c = true) ∧ Tail tail

lemma matchTail_iff (t : List Char) : matchTail t = true ↔ CodeTail t := by
  rcases t with - | ⟨c, - | ⟨d, - | ⟨e, rest⟩⟩⟩
  · simp [matchTail, CodeTail]
  · simp [matchTail, CodeTail]
  · constructor
    · intro h
      simp only [matchTail, Bool.and_eq_true, beq_iff_eq] at h
      exact Or.inr (Or.inr (Or.inr ⟨d, by rw [h.1], h.2⟩))
    · intro h
      rcases h with h | h | h | ⟨e, he, hd⟩
      · exact absurd h (by simp)
      · exact absurd h (by simp)
      · exact absurd h (by simp)
      · simp only [List.cons.injEq, and_true] at he
        obtain ⟨hc, hd2⟩ := he
        simp [matchTail, hc, hd2, hd]
  · simp [matchTail, CodeTail]

lemma parse_shape_of_isSome {s : String}
    (h : (parseRepoUrl s).isSome = true) : UrlShape CodeTail s := by
  unfold parseRepoUrl at h
  split at h
  · simp at h
  · rename_i rest hstrip
    split at h
    · rename_i rest2 hdrop
      split at h
      · simp at h
      · rename_i hemp
        split at h
        · rename_i hmt
          obtain ⟨pre, hl, hci⟩ := (stripCI_some_iff _ _ _).mp hstrip
          simp only [Bool.or_eq_true, List.isEmpty_iff] at hemp
          push_neg at hemp
          refine ⟨pre, rest.takeWhile repoChar, rest2.takeWhile repoChar,
            rest2.dropWhile repoChar, ?_, hci, hemp.1, ?_, hemp.2, ?_, ?_⟩
          · rw [hl]
            congr 1
            calc rest
                = rest.takeWhile repoChar ++ rest.dropWhile repoChar :=
                  (List.takeWhile_append_dropWhile _ _).symm
              _ = rest.takeWhile repoChar ++ ('/' :: rest2) := by rw [hdrop]
              _ = rest.takeWhile repoChar ++
                  ('/' :: (rest2.takeWhile repoChar ++
                    rest2.dropWhile repoChar)) := by
                  rw [List.takeWhile_append_dropWhile]
          · intro c hc
            exact takeWhile_mem_pred hc
          · intro c hc
            exact takeWhile_mem_pred hc
          · exact (matchTail_iff _).mp hmt
        · simp at h
    · simp at h

lemma parse_isSome_of_shape {s : String} (hs : UrlShape CodeTail s) :
    (parseRepoUrl s).isSome = true := by
  obtain ⟨pre, owner, name, tail, hl, hci, hone, hoc, hnne, hnc, htail⟩ := hs
  have hstrip : stripCI hostChars s.data =
      some (owner ++ '/' :: (name ++ tail)) :=
    (stripCI_some_iff _ _ _).mpr ⟨pre, hl, hci⟩
  obtain ⟨htw, hdw⟩ :=
    takeWhile_append_not owner '/' (name ++ tail) hoc repoChar_slash
  have htw2 : (name ++ tail).takeWhile repoChar = name ∧
      (name ++ tail).dropWhile repoChar = tail := by
    rcases htail with rfl | rfl | rfl | ⟨c, rfl, hc⟩
    · simpa using takeWhile_all name hnc
    · exact takeWhile_append_not name '/' [] hnc repoChar_slash
    · exact takeWhile_append_not name '#' [] hnc repoChar_hash
    · exact takeWhile_append_not name '#' [c] hnc repoChar_hash
  have hof : owner.isEmpty = false := by
    simpa [List.isEmpty_iff] using hone
  have hnf : name.isEmpty = false := by
    simpa [List.isEmpty_iff] using hnne
  have hmt : matchTail tail = true := (matchTail_iff tail).mpr htail
  unfold parseRepoUrl
  rw [hstrip]
  simp [hdw, htw, htw2.1, htw2.2, hof, hnf, hmt]

lemma parse_isSome_iff (s : String) :
    (parseRepoUrl s).isSome = true ↔ UrlShape CodeTail s :=
  ⟨parse_shape_of_isSome, parse_isSome_of_shape⟩

/-- C5 (amended): parsing succeeds exactly when the input matches
`https://github.com/<owner>/<name>` (scheme and host case-insensitively)
with owner and name over alphanumerics, dot, underscore, hyphen, followed
by nothing, a trailing slash, or a fragment of **at most one**
non-line-terminator character (the claim tolerated fragments of any
length); on every non-empty trimmed mismatch the route answers 400
`INVALID_REPO_URL` with the exact user-facing message, independently of
every upstream outcome (no network calls). -/
theorem c5_thm (s : String) :
    ((parseRepoUrl s).isSome = true ↔ UrlShape CodeTail s) ∧
    (strTrim s ≠ "" → parseRepoUrl (strTrim s) = none →
      ∀ (env : RouteEnv) (repoOut : HttpResult GhRepoInfo)
        (langsOut : HttpResult (List (String × Nat)))
        (treeOut : HttpResult GhTree) (gem : GeminiOutcome),
        generateReadmeRoute env (some s) repoOut langsOut treeOut gem =
          .errorRes 400
            "Invalid GitHub repository URL. Expected https://github.com/<owner>/<repo>"
            "INVALID_REPO_URL") := by
  refine ⟨parse_isSome_iff s, ?_⟩
  intro hne hnone env repoOut langsOut treeOut gem
  simp [generateReadmeRoute, hne, hnone]

/-- C5 counterexample: `https://github.com/a/b#main` matches the claim's
pattern (a fragment is tolerated), yet the code's parser rejects it —
the regex accepts at most one character after the hash. -/
theorem c5_counterexample :
    UrlShape SpecTail "https://github.com/a/b#main" ∧
    parseRepoUrl "https://github.com/a/b#main" = none := by
  constructor
  · exact ⟨hostChars, ['a'], ['b'], '#' :: "main".data, by decide, by decide,
      by decide, by decide, by decide, by decide,
      Or.inr (Or.inr ⟨"main".data, rfl⟩)⟩
  · rfl

/-- C5 witness: the amended theorem evaluated on a matching URL and on a
mismatching input. -/
theorem c5_witness :
    (parseRepoUrl "https://github.com/acme/widget").isSome = true ∧
    generateReadmeRoute ⟨some "t", some "k"⟩ (some "not-a-url")
      (.transport "") (.transport "") (.transport "") (.reply none) =
      .errorRes 400
        "Invalid GitHub repository URL. Expected https://github.com/<owner>/<repo>"
        "INVALID_REPO_URL" := by
  constructor
  · exact (c5_thm "https://github.com/acme/widget").1.mpr
      ⟨hostChars, "acme".data, "widget".data, [], by decide, by decide,
        by decide, by decide, by decide, by decide, Or.inl rfl⟩
  · exact (c5_thm "not-a-url").2 (by decide) (by decide) _ _ _ _ _
